import Mathlib

/-!
# Verification of BCML's orchestration core (`bcml/__main__.py`)

Shallow embedding of the install orchestrator, result-envelope wrapper and
single-instance argument relay of BCML, together with proofs of the spec's
claims about them.

Conventions:
* Python functions become Lean functions; side effects (installs, merges,
  filesystem and socket operations) become explicit event traces
  (`Event`, `NetEvent`).
* Python exceptions become explicit `Option`/sum results; the exception
  outcome of each merger's `perform_merge` is an input `fail` function.
* Python objects holding attributes become structures; a possibly-absent
  attribute or dictionary key becomes an `Option` field (`none` = absent).
* Definitions named after source symbols (`win_or_lose`, `install_mod`,
  `apply_queue`, `update_mod`, `remerge`, `oneclick_listener`) are direct
  translations of the code in `src/bcml/__main__.py`.  Collaborators that
  live in modules outside the provided source (`bcml.install`,
  `bcml.mergers`, `bcml._oneclick`) are modelled from the spec and say so
  in their doc comments.
-/

/-! ## Result Envelope (`win_or_lose`, lines 28–46) -/

/-- A Python exception as seen by `win_or_lose`: its `error_text`
attribute (absent unless someone set it) and its `str()` message. -/
structure PyExn where
  error_text : Option String
  msg : String
deriving Repr, DecidableEq

/-- Outcome of calling the wrapped function: a return value or a raised
exception. -/
inductive FuncResult (α : Type) where
  | ok (v : α)
  | raised (e : PyExn)
deriving Repr, DecidableEq

/-- The dictionary returned by `win_or_lose`'s inner `status_run`.  Each
field is a key of the Python dict; `none` means the key is absent.  The
`value` field records a would-be return value of the wrapped operation
(the source never sets such a key). -/
structure Envelope (α : Type) where
  success : Option Bool := none
  value : Option α := none
  error : Option String := none
  error_text : Option Bool := none
deriving Repr, DecidableEq

/-- `setattr(err, "error_text", t)`. -/
def setErrorText (e : PyExn) (t : String) : PyExn :=
  { e with error_text := some t }

/-- `win_or_lose` (lines 28–46).  `tb` is the string produced by
`traceback.format_exc(limit=-5, chain=True)` at the catch site.  On
success the code returns `{"success": True}` — the wrapped function's
return value is discarded.  On an exception it sets
`err.error_text = getattr(err, "error_text", tb)` and returns
`{"error": err.error_text, "error_text": hasattr(err, "error_text")}`. -/
def win_or_lose {α : Type} (tb : String) (f : FuncResult α) : Envelope α :=
  match f with
  | .ok _ => { success := some true }
  | .raised err =>
      let err2 := setErrorText err (err.error_text.getD tb)
      { error := err2.error_text, error_text := some err2.error_text.isSome }

/-! ## ArgumentRelay (`oneclick_listener`, lines 577–595) -/

/-- Observable socket/process actions of the relay. -/
inductive NetEvent where
  | connect
  | sendText (s : String)
  | closeSock
  | exitProcess (code : Nat)
  | handleArg (s : String)
deriving Repr, DecidableEq

/-- One result of `conn.recv(1024)` on the primary side: a decoded UTF-8
chunk (the empty string models `b""`, i.e. the peer closed), or a
`ConnectionResetError`. -/
inductive Recv where
  | chunk (s : String)
  | reset
deriving Repr, DecidableEq

/-- Modelled from the spec: `_oneclick.send_arg` lives in
`bcml/_oneclick.py`, which is not part of the provided source.  Per the
spec the secondary "connects as a client to the same endpoint, writes its
own argument text plus the terminator, closes".  The terminator is the
sentinel `"."` the primary-side loop in the provided source tests for. -/
def send_arg (args : String) : List NetEvent :=
  [NetEvent.connect, NetEvent.sendText (args ++ "."), NetEvent.closeSock]

/-- The inner `while True: data = conn.recv(1024) ...` loop (lines
588–595) for one accepted connection, given the sequence of `recv`
results.  A `ConnectionResetError` breaks the loop; empty data or the
lone sentinel `b"."` breaks the loop; any other chunk is forwarded to
`_oneclick.process_arg` and the loop continues.  Returns the forwarded
chunks in order. -/
def recvLoop : List Recv → List String
  | [] => []
  | Recv.reset :: _ => []
  | Recv.chunk s :: rest =>
      if s = "" ∨ s = "." then [] else s :: recvLoop rest

/-- The accept loop (lines 585–595), restricted to finitely many accepted
connections: each connection is serviced to completion (its `with conn:`
block), then the loop awaits the next connection. -/
def acceptLoop : List (List Recv) → List String
  | [] => []
  | conn :: rest => recvLoop conn ++ acceptLoop rest

/-- `oneclick_listener` (lines 577–595).  `bindFails` is the outcome of
`sock.bind(("127.0.0.1", 6666))`: when it raises `socket.error` the
process calls `_oneclick.send_arg(sock)` and then `os._exit(0)`;
otherwise it listens and runs the accept loop, whose forwarded chunks
each become a `_oneclick.process_arg` call. -/
def oneclick_listener (bindFails : Bool) (ownArgs : String)
    (conns : List (List Recv)) : List NetEvent :=
  if bindFails then
    send_arg ownArgs ++ [NetEvent.exitProcess 0]
  else
    (acceptLoop conns).map NetEvent.handleArg

/-! ## Mergers, mods and the Install Orchestrator -/

/-- A merger as the orchestrator sees it: its `NAME` and its
`friendly_name`. -/
structure Merger where
  name : String
  friendlyName : String
deriving Repr, DecidableEq

/-- An installed mod (`BcmlMod`) as the orchestrator sees it: its path,
its priority, and the `NAME`s of the mergers that logged changes for it. -/
structure BcmlMod where
  path : String
  priority : Nat
  mergers : List String
deriving Repr, DecidableEq

/-- Modelled from the spec: each merger's `is_mod_logged` test (the
merger classes live in `bcml.mergers`, outside the provided source) is
"cheap, metadata-based": it holds exactly when the mod records that
merger among the mergers that logged changes for it. -/
def is_mod_logged (m : Merger) (mod : BcmlMod) : Bool :=
  mod.mergers.contains m.name

/-- Modelled from the spec: `mergers.get_mergers_for_mod(mod)`
(`mergersAffectedBy(mod)` in the spec) returns the registry mergers whose
`is_mod_logged` test holds for the mod; it "never triggers
recomputation".  `registry` is the full `mergers.get_mergers()` list. -/
def get_mergers_for_mod (registry : List Merger) (mod : BcmlMod) : List Merger :=
  registry.filter (fun m => is_mod_logged m mod)

/-- Modelled from the spec: `mergers.sort_mergers(subset)` produces "a
deterministic execution order consistent with declared dependency edges".
Taking the registry list as already listed in dependency order, the sort
keeps exactly the registry entries whose name occurs in the subset. -/
def sort_mergers (registry : List Merger) (subset : List Merger) : List Merger :=
  registry.filter (fun m => (subset.map Merger.name).contains m.name)

/-- Exceptions flowing out of orchestrator operations: a plain exception,
or `bcml.util.MergeError` wrapping its cause. -/
inductive Exc where
  | exc (msg : String)
  | mergeError (cause : Exc)
deriving Repr, DecidableEq

/-- Observable side effects of an orchestrator operation, in order. -/
inductive Event where
  | installMod (path : String) (insertPriority : Option Nat) (poolId : Nat)
  | changePriority (path : String) (priority : Nat)
  | removeTree (path : String)
  | perform (mergerName : String) (poolId : Option Nat)
  | linkMaster
  | refreshMasterExport
deriving Repr, DecidableEq

/-- `for merger in ms: merger.set_pool(pool); merger.perform_merge()`.
`fail m` is the exception `m`'s `perform_merge` raises, if any; the loop
stops at the first raising merger and propagates its exception. -/
def runMergers (fail : String → Option Exc) (pool : Option Nat) :
    List Merger → List Event × Option Exc
  | [] => ([], none)
  | m :: rest =>
      match fail m.name with
      | some e => ([], some e)
      | none =>
          let r := runMergers fail pool rest
          (Event.perform m.name pool :: r.1, r.2)

/-- The `merger_set.update({m for m in mod.mergers if m.NAME not in
{m.NAME for m in merger_set}})` step of `install_mod` (lines 246–253):
add the new mergers whose `NAME` is not already present. -/
def addMergers (acc : List Merger) (ms : List Merger) : List Merger :=
  acc ++ ms.filter (fun m => !((acc.map Merger.name).contains m.name))

/-- The whole `merger_set` accumulation loop of `install_mod` (lines
244–253): the union of the mods' logged mergers, with per-`NAME` dedup. -/
def installUnion (registry : List Merger) (mods : List BcmlMod) : List Merger :=
  mods.foldl (fun acc mod => addMergers acc (get_mergers_for_mod registry mod)) []

/-- `Api.install_mod` (lines 225–261).  The batch `mods` lists, in order,
the `BcmlMod` each `install.install_mod(Path(m), ..., pool=pool)` call
registers (extraction and metadata parsing are the package-extraction
collaborator).  One `Pool` (`poolId`) is opened for the whole batch.
After every install, the union `merger_set` of the mods' logged mergers
is accumulated with per-`NAME` dedup, sorted by `mergers.sort_mergers`,
and each sorted merger gets `set_pool(pool)` and `perform_merge()`; any
exception from that block is re-raised as `MergeError(err)`. -/
def install_mod (registry : List Merger) (poolId : Nat)
    (fail : String → Option Exc) (mods : List BcmlMod) : List Event × Option Exc :=
  let installEvents := mods.map (fun m => Event.installMod m.path none poolId)
  let r := runMergers fail (some poolId)
    (sort_mergers registry (installUnion registry mods))
  (installEvents ++ r.1, r.2.map Exc.mergeError)

/-- One step of the remerger collection of `apply_queue` (lines
324–328): add `merger` when it is logged for `mod` and its `NAME` is not
yet present in the accumulated set. -/
def addRemerger (mod : BcmlMod) (acc2 : List Merger) (merger : Merger) : List Merger :=
  if is_mod_logged merger mod
      ∧ ¬((acc2.map Merger.name).contains merger.name) = true then
    acc2 ++ [merger]
  else acc2

/-- The inner `for merger in all_mergers:` loop of `apply_queue` for one
mod. -/
def collectRemergersFor (mod : BcmlMod) (allMergers : List Merger)
    (acc : List Merger) : List Merger :=
  allMergers.foldl (addRemerger mod) acc

/-- The `for mod in mods: for merger in all_mergers: ...` remerger
collection of `apply_queue` (lines 322–328): walk the mods, and for each
walk the full merger list, adding a merger when it is logged for the mod
and its `NAME` is not yet present. -/
def collectRemergers (allMergers : List Merger) (mods : List BcmlMod) : List Merger :=
  mods.foldl (fun acc mod => collectRemergersFor mod allMergers acc) []

/-- The `for i in params["installs"]` loop of `apply_queue` (lines
310–331).  `mods` is the accumulated mod list (moved mods first).  Each
iteration installs one queued mod, appends it to `mods`, then rebuilds
`remergers` from *all* mods so far and runs `sort_mergers(remergers)`
with the shared pool — i.e. the merger runs happen inside the per-item
loop. -/
def applyQueueLoop (registry : List Merger) (poolId : Nat)
    (mods : List BcmlMod) : List BcmlMod → List Event
  | [] => []
  | i :: rest =>
      let mods2 := mods ++ [i]
      let remergers := collectRemergers registry mods2
      Event.installMod i.path (some i.priority) poolId
        :: ((sort_mergers registry remergers).map
              (fun m => Event.perform m.name (some poolId))
            ++ applyQueueLoop registry poolId mods2 rest)

/-- `Api.apply_queue` (lines 301–332): first every queued move gets
`mod.change_priority(move_mod["priority"])`, then one `Pool` is opened
and each queued install runs through `applyQueueLoop`, then
`install.refresh_master_export()`. -/
def apply_queue (registry : List Merger) (poolId : Nat)
    (moves : List (BcmlMod × Nat)) (installs : List BcmlMod) : List Event :=
  (moves.map (fun mv => Event.changePriority mv.1.path mv.2))
    ++ applyQueueLoop registry poolId
        (moves.map (fun mv => { mv.1 with priority := mv.2 })) installs
    ++ [Event.refreshMasterExport]

/-- `Api.update_mod` (lines 263–293), after a new package file has been
picked.  `oldMod` is the installed mod being updated; `newMod` is the
`BcmlMod` the `install.install_mod(Path(update_file),
insert_priority=mod.priority, ..., pool=pool)` call registers.  The code
takes `remergers = mergers.get_mergers_for_mod(mod)`, removes the old
mod's files, installs the new package at the old priority, unions in the
new mod's mergers with per-`NAME` dedup, and runs each remerger with the
shared pool. -/
def update_mod (registry : List Merger) (poolId : Nat)
    (fail : String → Option Exc) (oldMod newMod : BcmlMod) : List Event × Option Exc :=
  let remergers := get_mergers_for_mod registry oldMod
  let remergers2 := addMergers remergers (get_mergers_for_mod registry newMod)
  let r := runMergers fail (some poolId) remergers2
  (Event.removeTree oldMod.path
      :: Event.installMod newMod.path (some oldMod.priority) poolId
      :: r.1,
   r.2)

/-- Modelled from the spec: `install.refresh_merges()` (in
`bcml/install.py`, outside the provided source) "forces every merger to
recompute unconditionally": it performs every registry merger in order. -/
def refresh_merges (registry : List Merger) (fail : String → Option Exc) :
    List Event × Option Exc :=
  runMergers fail none registry

/-- The `try:` body of `Api.remerge` (lines 402–416).  With no installed
mods it tears down the master modpack directory when it exists and
relinks the empty master mod, then returns.  Otherwise `"all"` runs
`install.refresh_merges()`, and any other name performs the first
registry merger whose `friendly_name` equals it (`[...][0]` raises
`IndexError` when none matches) and then refreshes the master export. -/
def remergeBody (registry : List Merger) (installedMods : List BcmlMod)
    (masterExists : Bool) (fail : String → Option Exc)
    (target : String) : List Event × Option Exc :=
  if installedMods.isEmpty then
    (if masterExists then
       [Event.removeTree "master_modpack", Event.linkMaster]
     else [], none)
  else if target = "all" then
    refresh_merges registry fail
  else
    match registry.filter (fun m => m.friendlyName = target) with
    | [] => ([], some (Exc.exc "IndexError"))
    | m :: _ =>
        match fail m.name with
        | some e => ([], some e)
        | none => ([Event.perform m.name none, Event.refreshMasterExport], none)

/-- `Api.remerge` (lines 400–418): the whole body sits in a `try:` whose
handler re-raises any exception as `MergeError(err)`. -/
def remerge (registry : List Merger) (installedMods : List BcmlMod)
    (masterExists : Bool) (fail : String → Option Exc)
    (target : String) : List Event × Option Exc :=
  let r := remergeBody registry installedMods masterExists fail target
  (r.1, r.2.map Exc.mergeError)

/-- Whether an event is a `perform_merge` of the merger called `name`. -/
def isPerformOf (name : String) (e : Event) : Bool :=
  match e with
  | Event.perform n _ => n = name
  | _ => false

/-- Number of `perform` events for merger `name` in a trace. -/
def countPerform (name : String) (evs : List Event) : Nat :=
  (evs.filter (isPerformOf name)).length

/-- Number of occurrences of `name` in a list of merger names. -/
def countName (name : String) (ns : List String) : Nat :=
  (ns.filter (fun n => n = name)).length

/-- Merger names performed in a trace, in execution order. -/
def performedNames (evs : List Event) : List String :=
  evs.filterMap (fun e =>
    match e with
    | Event.perform n _ => some n
    | _ => none)

/-- Concrete two-merger registry used by witnesses and counterexamples. -/
def demoRegistry : List Merger :=
  [{ name := "M1", friendlyName := "Merger One" },
   { name := "M2", friendlyName := "Merger Two" }]

/-- Concrete mod logging only merger `M1`. -/
def demoModA : BcmlMod := { path := "modA", priority := 100, mergers := ["M1"] }

/-- Concrete mod logging only merger `M2`. -/
def demoModB : BcmlMod := { path := "modB", priority := 101, mergers := ["M2"] }

/-- Concrete replacement package for `demoModA` logging only `M2`. -/
def demoModA2 : BcmlMod := { path := "modA", priority := 100, mergers := ["M2"] }

/-- Concrete `perform_merge` outcome where only merger `M1` raises. -/
def demoFail (n : String) : Option Exc :=
  if n = "M1" then some (Exc.exc "boom") else none

/-! ## Theorems -/

/-- C7: when a primary instance owns the loopback endpoint so the bind
fails, the second instance connects as a client, writes its own argument
text plus the terminator, closes, and exits immediately with a success
status; it performs no further work (in particular it never handles an
argument itself). -/
theorem secondary_instance_relays_and_exits (ownArgs : String)
    (conns : List (List Recv)) :
    oneclick_listener true ownArgs conns
      = [NetEvent.connect, NetEvent.sendText (ownArgs ++ "."),
         NetEvent.closeSock, NetEvent.exitProcess 0]
    ∧ ∀ s, NetEvent.handleArg s ∉ oneclick_listener true ownArgs conns := by
  refine ⟨rfl, ?_⟩
  intro s h
  simp [oneclick_listener, send_arg] at h

/-- C3 counterexample: on a wrapped operation that returns the value 42
without raising, the envelope carries the success indicator but *not* the
operation's own return value, refuting the claim as stated. -/
theorem success_envelope_has_no_value :
    ¬ ((win_or_lose "tb" (FuncResult.ok (42 : Nat))).success = some true
        ∧ (win_or_lose "tb" (FuncResult.ok (42 : Nat))).value = some 42) := by
  intro h
  simp [win_or_lose] at h

/-- C3 amended: when the underlying operation completes without raising,
the caller receives exactly `{"success": True}` — a success indicator
only; the operation's own return value is discarded. -/
theorem success_envelope (α : Type) (tb : String) (v : α) :
    win_or_lose tb (FuncResult.ok v)
      = { success := some true, value := none, error := none,
          error_text := none } := rfl

/-- C10 counterexample: an exception arriving with a pre-set *empty*
`error_text` attribute yields a failure envelope whose trace-availability
flag is true but whose error field is the empty string, refuting the
claim that the error field is always non-empty. -/
theorem failure_envelope_empty_error :
    ¬ (((win_or_lose "Traceback (most recent call last):"
          (FuncResult.raised { error_text := some "", msg := "boom" }))
            : Envelope Nat).error_text = some true
        ∧ ∃ s, ((win_or_lose "Traceback (most recent call last):"
            (FuncResult.raised { error_text := some "", msg := "boom" }))
              : Envelope Nat).error = some s ∧ s ≠ "") := by
  rintro ⟨-, s, hs, hne⟩
  have h2 : ((win_or_lose "Traceback (most recent call last):"
      (FuncResult.raised { error_text := some "", msg := "boom" }))
        : Envelope Nat).error = some "" := rfl
  rw [h2] at hs
  exact hne (Option.some.inj hs.symm)

/-- C10 amended: for every failure captured by `win_or_lose`, the
trace-availability flag of the envelope is true (the wrapper sets the
`error_text` attribute before testing for it), and the error field is
non-empty provided the traceback string is non-empty and any pre-set
`error_text` attribute of the exception is non-empty. -/
theorem failure_envelope_flag_true_error_nonempty (α : Type) (tb : String)
    (e : PyExn) (htb : tb ≠ "") (he : ∀ s, e.error_text = some s → s ≠ "") :
    ((win_or_lose tb (FuncResult.raised e)) : Envelope α).error_text = some true
    ∧ ∃ s, ((win_or_lose tb (FuncResult.raised e)) : Envelope α).error = some s
        ∧ s ≠ "" := by
  refine ⟨by simp [win_or_lose, setErrorText], ⟨e.error_text.getD tb, ?_, ?_⟩⟩
  · simp [win_or_lose, setErrorText]
  · cases h : e.error_text with
    | none => simpa [h] using htb
    | some s => simpa [h] using he s h

/-- Witness for `failure_envelope_flag_true_error_nonempty` at a concrete
exception with no pre-set `error_text`. -/
theorem failure_envelope_flag_true_error_nonempty_witness :
    (("TB" : String) ≠ ""
      ∧ (∀ s, (PyExn.mk none "boom").error_text = some s → s ≠ ""))
    ∧ (((win_or_lose "TB" (FuncResult.raised (PyExn.mk none "boom")))
          : Envelope Nat).error_text = some true
        ∧ ∃ s, ((win_or_lose "TB" (FuncResult.raised (PyExn.mk none "boom")))
            : Envelope Nat).error = some s ∧ s ≠ "") :=
  ⟨⟨by decide, by intro s h; cases h⟩,
    failure_envelope_flag_true_error_nonempty Nat "TB" (PyExn.mk none "boom")
      (by decide) (by intro s h; cases h)⟩

/-- C8: the primary accept loop forwards every non-sentinel chunk of a
connection to the handler until the lone sentinel `"."`, an empty read
(connection closed) or a `ConnectionResetError`, whichever comes first; a
reset is end-of-input rather than fatal, and afterwards the loop services
the remaining connections unchanged. -/
theorem accept_loop_forwards_until_terminator (cs : List String) (t : Recv)
    (suffix : List Recv) (conns : List (List Recv))
    (hcs : ∀ s ∈ cs, ¬(s = "" ∨ s = "."))
    (ht : t = Recv.reset ∨ t = Recv.chunk "" ∨ t = Recv.chunk ".") :
    recvLoop (cs.map Recv.chunk ++ t :: suffix) = cs
    ∧ acceptLoop ((cs.map Recv.chunk ++ t :: suffix) :: conns)
        = cs ++ acceptLoop conns := by
  have h1 : recvLoop (cs.map Recv.chunk ++ t :: suffix) = cs := by
    induction cs with
    | nil => rcases ht with h | h | h <;> subst h <;> simp [recvLoop]
    | cons a as ih =>
        have ha := hcs a (by simp)
        have ih2 := ih (fun s hs => hcs s (List.mem_cons_of_mem a hs))
        simpa [recvLoop, ha] using ih2
  exact ⟨h1, by simp [acceptLoop, h1]⟩

/-- Witness for `accept_loop_forwards_until_terminator`: one connection
delivering the chunk `"hello"` and then resetting, followed by a second
connection. -/
theorem accept_loop_forwards_until_terminator_witness :
    ((∀ s ∈ ["hello"], ¬(s = "" ∨ s = "."))
      ∧ (Recv.reset = Recv.reset ∨ Recv.reset = Recv.chunk ""
          ∨ Recv.reset = Recv.chunk "."))
    ∧ (recvLoop (["hello"].map Recv.chunk ++ Recv.reset :: []) = ["hello"]
        ∧ acceptLoop ((["hello"].map Recv.chunk ++ Recv.reset :: [])
            :: [[Recv.chunk "later", Recv.chunk "."]])
          = ["hello"] ++ acceptLoop [[Recv.chunk "later", Recv.chunk "."]]) :=
  ⟨⟨by decide, Or.inl rfl⟩,
    accept_loop_forwards_until_terminator ["hello"] Recv.reset []
      [[Recv.chunk "later", Recv.chunk "."]] (by decide) (Or.inl rfl)⟩

/-! ### Counting and membership lemmas -/

theorem countName_cons (name n : String) (ns : List String) :
    countName name (n :: ns) = (if n = name then 1 else 0) + countName name ns := by
  by_cases h : n = name <;> simp [countName, List.filter_cons, h, Nat.add_comm]

theorem countName_append (name : String) (a b : List String) :
    countName name (a ++ b) = countName name a + countName name b := by
  simp [countName, List.filter_append]

theorem countName_eq_zero {name : String} {ns : List String} (h : name ∉ ns) :
    countName name ns = 0 := by
  induction ns with
  | nil => rfl
  | cons n rest ih =>
      have h1 : ¬(n = name) := fun e => h (by simp [e])
      rw [countName_cons, ih (fun hm => h (List.mem_cons_of_mem n hm))]
      simp [h1]

theorem countName_nodup {name : String} {ns : List String} (hnd : ns.Nodup)
    (hm : name ∈ ns) : countName name ns = 1 := by
  induction ns with
  | nil => cases hm
  | cons n rest ih =>
      rcases List.mem_cons.mp hm with h | h
      · rw [countName_cons, countName_eq_zero (h ▸ (List.nodup_cons.mp hnd).1)]
        simp [h.symm]
      · have h1 : ¬(n = name) := by
          intro e
          exact (List.nodup_cons.mp hnd).1 (e ▸ h)
        rw [countName_cons, ih (List.nodup_cons.mp hnd).2 h]
        simp [h1]

theorem countName_filter_names (name : String) (p : String → Bool)
    (regs : List Merger) :
    countName name ((regs.filter (fun m => p m.name)).map Merger.name)
      = if p name then countName name (regs.map Merger.name) else 0 := by
  induction regs with
  | nil => simp [countName]
  | cons m rest ih =>
      by_cases hn : m.name = name
      · subst hn
        by_cases hp : p m.name <;>
          simp [List.filter_cons, hp, countName_cons, ih]
      · by_cases hp : p m.name <;>
          simp [List.filter_cons, hp, countName_cons, ih, hn]

theorem mem_gmfm_names (registry : List Merger) (mod : BcmlMod) (name : String) :
    name ∈ (get_mergers_for_mod registry mod).map Merger.name
      ↔ name ∈ registry.map Merger.name ∧ name ∈ mod.mergers := by
  constructor
  · intro h
    rcases List.mem_map.mp h with ⟨m, hm, rfl⟩
    rcases List.mem_filter.mp hm with ⟨hreg, hlog⟩
    exact ⟨List.mem_map_of_mem _ hreg, by simpa [is_mod_logged] using hlog⟩
  · rintro ⟨h1, h2⟩
    rcases List.mem_map.mp h1 with ⟨m, hm, rfl⟩
    exact List.mem_map_of_mem _
      (List.mem_filter.mpr ⟨hm, by simpa [is_mod_logged] using h2⟩)

theorem mem_sort_names (registry subset : List Merger) (name : String) :
    name ∈ (sort_mergers registry subset).map Merger.name
      ↔ name ∈ registry.map Merger.name ∧ name ∈ subset.map Merger.name := by
  constructor
  · intro h
    rcases List.mem_map.mp h with ⟨m, hm, rfl⟩
    rcases List.mem_filter.mp hm with ⟨hreg, hsub⟩
    exact ⟨List.mem_map_of_mem _ hreg, by simpa using hsub⟩
  · rintro ⟨h1, h2⟩
    rcases List.mem_map.mp h1 with ⟨m, hm, rfl⟩
    exact List.mem_map_of_mem _ (List.mem_filter.mpr ⟨hm, by simpa using h2⟩)

theorem mem_addMergers_names (acc ms : List Merger) (name : String) :
    name ∈ (addMergers acc ms).map Merger.name
      ↔ name ∈ acc.map Merger.name ∨ name ∈ ms.map Merger.name := by
  constructor
  · intro h
    rcases List.mem_map.mp h with ⟨m, hm, rfl⟩
    rcases List.mem_append.mp hm with h1 | h1
    · exact Or.inl (List.mem_map_of_mem _ h1)
    · exact Or.inr (List.mem_map_of_mem _ (List.mem_filter.mp h1).1)
  · intro h
    rcases h with h1 | h1
    · rcases List.mem_map.mp h1 with ⟨m, hm, rfl⟩
      exact List.mem_map_of_mem _ (List.mem_append.mpr (Or.inl hm))
    · by_cases hacc : name ∈ acc.map Merger.name
      · rcases List.mem_map.mp hacc with ⟨m, hm, rfl⟩
        exact List.mem_map_of_mem _ (List.mem_append.mpr (Or.inl hm))
      · rcases List.mem_map.mp h1 with ⟨m, hm, hname⟩
        subst hname
        exact List.mem_map_of_mem _ (List.mem_append.mpr (Or.inr
          (List.mem_filter.mpr ⟨hm, by simpa using hacc⟩)))

theorem countName_addMergers (acc ms : List Merger) (name : String) :
    countName name ((addMergers acc ms).map Merger.name)
      = if name ∈ acc.map Merger.name then countName name (acc.map Merger.name)
        else countName name (ms.map Merger.name) := by
  rw [addMergers, List.map_append, countName_append,
    countName_filter_names name (fun n => !((acc.map Merger.name).contains n)) ms]
  by_cases hacc : name ∈ acc.map Merger.name
  · simp [hacc]
  · simp [hacc, countName_eq_zero hacc]

theorem mem_installUnion_go (registry : List Merger) (mods : List BcmlMod)
    (init : List Merger) (name : String) :
    name ∈ ((mods.foldl
        (fun acc mod => addMergers acc (get_mergers_for_mod registry mod))
        init).map Merger.name)
      ↔ name ∈ init.map Merger.name
        ∨ ∃ mod ∈ mods, name ∈ registry.map Merger.name ∧ name ∈ mod.mergers := by
  induction mods generalizing init with
  | nil => simp
  | cons mod rest ih =>
      rw [List.foldl_cons, ih, mem_addMergers_names, mem_gmfm_names]
      constructor
      · rintro (⟨h | h⟩ | h)
        · exact Or.inl h
        · exact Or.inr ⟨mod, by simp, h⟩
        · rcases h with ⟨m, hm, hh⟩
          exact Or.inr ⟨m, List.mem_cons_of_mem mod hm, hh⟩
      · rintro (h | ⟨m, hm, hh⟩)
        · exact Or.inl (Or.inl h)
        · rcases List.mem_cons.mp hm with h1 | h1
          · exact Or.inl (Or.inr (h1 ▸ hh))
          · exact Or.inr ⟨m, h1, hh⟩

theorem mem_installUnion_names (registry : List Merger) (mods : List BcmlMod)
    (name : String) :
    name ∈ (installUnion registry mods).map Merger.name
      ↔ name ∈ registry.map Merger.name ∧ ∃ mod ∈ mods, name ∈ mod.mergers := by
  rw [installUnion, mem_installUnion_go]
  constructor
  · rintro (h | ⟨m, hm, h1, h2⟩)
    · cases h
    · exact ⟨h1, m, hm, h2⟩
  · rintro ⟨h1, m, hm, h2⟩
    exact Or.inr ⟨m, hm, h1, h2⟩

theorem countPerform_cons (name : String) (e : Event) (evs : List Event) :
    countPerform name (e :: evs)
      = (if isPerformOf name e then 1 else 0) + countPerform name evs := by
  by_cases h : isPerformOf name e <;>
    simp [countPerform, List.filter_cons, h, Nat.add_comm]

theorem countPerform_append (name : String) (a b : List Event) :
    countPerform name (a ++ b) = countPerform name a + countPerform name b := by
  simp [countPerform, List.filter_append]

theorem countPerform_map_performs (name : String) (pool : Option Nat)
    (ms : List Merger) :
    countPerform name (ms.map (fun m => Event.perform m.name pool))
      = countName name (ms.map Merger.name) := by
  induction ms with
  | nil => rfl
  | cons m rest ih =>
      rw [List.map_cons, countPerform_cons, List.map_cons, countName_cons, ih]
      by_cases h : m.name = name <;> simp [isPerformOf, h]

theorem countPerform_map_installs (name : String) (poolId : Nat)
    (mods : List BcmlMod) :
    countPerform name (mods.map (fun m => Event.installMod m.path none poolId))
      = 0 := by
  induction mods with
  | nil => rfl
  | cons m rest ih =>
      rw [List.map_cons, countPerform_cons, ih]
      simp [isPerformOf]

theorem countPerform_map_moves (name : String) (moves : List (BcmlMod × Nat)) :
    countPerform name
      (moves.map (fun mv => Event.changePriority mv.1.path mv.2)) = 0 := by
  induction moves with
  | nil => rfl
  | cons mv rest ih =>
      rw [List.map_cons, countPerform_cons, ih]
      simp [isPerformOf]

theorem runMergers_none (pool : Option Nat) (ms : List Merger) :
    runMergers (fun _ => none) pool ms
      = (ms.map (fun m => Event.perform m.name pool), none) := by
  induction ms with
  | nil => rfl
  | cons m rest ih => simp [runMergers, ih]

theorem countPerform_runMergers_zero (fail : String → Option Exc)
    (pool : Option Nat) (ms : List Merger) (name : String)
    (h : name ∉ ms.map Merger.name) :
    countPerform name (runMergers fail pool ms).1 = 0 := by
  induction ms with
  | nil => rfl
  | cons m rest ih =>
      have h1 : ¬(m.name = name) := fun e => h (by simp [e])
      have h2 := ih (fun hm => h (by simp [List.mem_cons_of_mem, hm]))
      cases hf : fail m.name with
      | some e => simp [runMergers, hf, countPerform]
      | none =>
          rw [runMergers]
          simp only [hf]
          rw [countPerform_cons, h2]
          simp [isPerformOf, h1]

theorem runMergers_error (fail : String → Option Exc) (pool : Option Nat)
    (ms : List Merger) (e : Exc) (h : (runMergers fail pool ms).2 = some e) :
    ∃ m ∈ ms, fail m.name = some e := by
  induction ms with
  | nil => cases h
  | cons m rest ih =>
      cases hf : fail m.name with
      | some e2 =>
          rw [runMergers] at h
          simp only [hf] at h
          exact ⟨m, by simp, by rw [hf, ← h]⟩
      | none =>
          rw [runMergers] at h
          simp only [hf] at h
          rcases ih h with ⟨m2, hm2, he2⟩
          exact ⟨m2, List.mem_cons_of_mem m hm2, he2⟩

theorem performedNames_append (a b : List Event) :
    performedNames (a ++ b) = performedNames a ++ performedNames b := by
  simp [performedNames, List.filterMap_append]

theorem performedNames_map_installs (poolId : Nat) (mods : List BcmlMod) :
    performedNames (mods.map (fun m => Event.installMod m.path none poolId))
      = [] := by
  induction mods with
  | nil => rfl
  | cons m rest ih => simp [performedNames] at ih ⊢

theorem performedNames_map_performs (pool : Option Nat) (ms : List Merger) :
    performedNames (ms.map (fun m => Event.perform m.name pool))
      = ms.map Merger.name := by
  induction ms with
  | nil => rfl
  | cons m rest ih => simpa [performedNames] using ih

theorem install_mod_none (registry : List Merger) (poolId : Nat)
    (mods : List BcmlMod) :
    install_mod registry poolId (fun _ => none) mods
      = (mods.map (fun m => Event.installMod m.path none poolId)
          ++ (sort_mergers registry (installUnion registry mods)).map
               (fun m => Event.perform m.name (some poolId)),
         none) := by
  simp [install_mod, runMergers_none]

/-- C2: for every batch passed to `install_mod`, all installs are
registered first and only then do mergers run; the union of mergers the
installed mods declare as affected is ordered by the (dependency-ordered)
registry and each merger in that union runs exactly once; every merger
run uses the single pool opened for the batch. -/
theorem install_mod_batch_merges_once (registry : List Merger) (poolId : Nat)
    (mods : List BcmlMod) (name : String)
    (hnd : (registry.map Merger.name).Nodup) :
    (∃ performs,
      (install_mod registry poolId (fun _ => none) mods).1
        = mods.map (fun m => Event.installMod m.path none poolId) ++ performs
      ∧ ∀ e ∈ performs, ∃ n po, e = Event.perform n po)
    ∧ countPerform name (install_mod registry poolId (fun _ => none) mods).1
        = (if name ∈ registry.map Merger.name ∧ ∃ mod ∈ mods, name ∈ mod.mergers
           then 1 else 0)
    ∧ (∀ n po,
        Event.perform n po ∈ (install_mod registry poolId (fun _ => none) mods).1
        → po = some poolId)
    ∧ List.Sublist
        (performedNames (install_mod registry poolId (fun _ => none) mods).1)
        (registry.map Merger.name) := by
  have hrw : (install_mod registry poolId (fun _ => none) mods).1
      = mods.map (fun m => Event.installMod m.path none poolId)
        ++ (sort_mergers registry (installUnion registry mods)).map
             (fun m => Event.perform m.name (some poolId)) := by
    rw [install_mod_none]
  refine ⟨⟨_, hrw, ?_⟩, ?_, ?_, ?_⟩
  · intro e he
    rcases List.mem_map.mp he with ⟨m, hm, rfl⟩
    exact ⟨m.name, some poolId, rfl⟩
  · rw [hrw, countPerform_append, countPerform_map_installs,
      countPerform_map_performs, sort_mergers,
      countName_filter_names name
        (fun n => ((installUnion registry mods).map Merger.name).contains n)
        registry]
    by_cases hu : name ∈ (installUnion registry mods).map Merger.name
    · have hcond := (mem_installUnion_names registry mods name).mp hu
      have hc2 : ((installUnion registry mods).map Merger.name).contains name
          = true := by simpa using hu
      rw [hc2, if_pos rfl, if_pos hcond, countName_nodup hnd hcond.1]
    · have hcond : ¬(name ∈ registry.map Merger.name
          ∧ ∃ mod ∈ mods, name ∈ mod.mergers) :=
        fun hc => hu ((mem_installUnion_names registry mods name).mpr hc)
      have hc2 : ((installUnion registry mods).map Merger.name).contains name
          = false := by simpa using hu
      rw [hc2, if_neg (by simp), if_neg hcond]
  · intro n po hmem
    rw [hrw] at hmem
    rcases List.mem_append.mp hmem with h | h
    · rcases List.mem_map.mp h with ⟨m, hm, he⟩
      simp at he
    · rcases List.mem_map.mp h with ⟨m, hm, he⟩
      injection he with h1 h2
      exact h2.symm
  · rw [hrw, performedNames_append, performedNames_map_installs,
      performedNames_map_performs, sort_mergers]
    simp only [List.nil_append]
    exact List.Sublist.map Merger.name (List.filter_sublist registry)

/-- Witness for `install_mod_batch_merges_once`: installing `demoModA`
(logs only `M1`) and `demoModB` (logs only `M2`) in one batch. -/
theorem install_mod_batch_merges_once_witness :
    (demoRegistry.map Merger.name).Nodup
    ∧ ((∃ performs,
        (install_mod demoRegistry 0 (fun _ => none) [demoModA, demoModB]).1
          = [demoModA, demoModB].map (fun m => Event.installMod m.path none 0)
              ++ performs
        ∧ ∀ e ∈ performs, ∃ n po, e = Event.perform n po)
      ∧ countPerform "M1"
          (install_mod demoRegistry 0 (fun _ => none) [demoModA, demoModB]).1
          = (if "M1" ∈ demoRegistry.map Merger.name
                ∧ ∃ mod ∈ [demoModA, demoModB], "M1" ∈ mod.mergers
             then 1 else 0)
      ∧ (∀ n po,
          Event.perform n po
            ∈ (install_mod demoRegistry 0 (fun _ => none) [demoModA, demoModB]).1
          → po = some 0)
      ∧ List.Sublist
          (performedNames
            (install_mod demoRegistry 0 (fun _ => none) [demoModA, demoModB]).1)
          (demoRegistry.map Merger.name)) :=
  ⟨by decide,
    install_mod_batch_merges_once demoRegistry 0 [demoModA, demoModB] "M1"
      (by decide)⟩

/-- C1: evaluation of `apply_queue` at a two-install batch.  Because the
remerger union is recomputed and executed inside the per-install loop,
merger `M1` (logged by the first install) has `perform_merge` run twice
in one batch, contradicting "computed and executed exactly once for the
whole batch". -/
theorem apply_queue_performs_merger_twice :
    countPerform "M1" (apply_queue demoRegistry 0 [] [demoModA, demoModB]) = 2
    ∧ countPerform "M2" (apply_queue demoRegistry 0 [] [demoModA, demoModB]) = 1
    := by decide

theorem mem_collectRemergersFor (mod : BcmlMod) (allMergers : List Merger)
    (acc : List Merger) (name : String)
    (h : name ∈ (collectRemergersFor mod allMergers acc).map Merger.name) :
    name ∈ acc.map Merger.name ∨ name ∈ mod.mergers := by
  induction allMergers generalizing acc with
  | nil => exact Or.inl h
  | cons merger rest ih =>
      rw [collectRemergersFor, List.foldl_cons] at h
      rcases ih (addRemerger mod acc merger) h with h1 | h1
      · simp only [addRemerger] at h1
        split at h1
        · rename_i hcond
          rw [List.map_append] at h1
          rcases List.mem_append.mp h1 with h2 | h2
          · exact Or.inl h2
          · have h3 : name = merger.name := by simpa using h2
            exact Or.inr (h3 ▸ (by simpa [is_mod_logged] using hcond.1))
        · exact Or.inl h1
      · exact Or.inr h1

theorem mem_collectRemergers_go (allMergers : List Merger) (mods : List BcmlMod)
    (acc : List Merger) (name : String)
    (h : name ∈ ((mods.foldl
        (fun acc mod => collectRemergersFor mod allMergers acc) acc).map
          Merger.name)) :
    name ∈ acc.map Merger.name ∨ ∃ mod ∈ mods, name ∈ mod.mergers := by
  induction mods generalizing acc with
  | nil => exact Or.inl h
  | cons mod rest ih =>
      rw [List.foldl_cons] at h
      rcases ih (collectRemergersFor mod allMergers acc) h with h1 | h1
      · rcases mem_collectRemergersFor mod allMergers acc name h1 with h2 | h2
        · exact Or.inl h2
        · exact Or.inr ⟨mod, by simp, h2⟩
      · rcases h1 with ⟨m, hm, hmm⟩
        exact Or.inr ⟨m, List.mem_cons_of_mem mod hm, hmm⟩

theorem mem_collectRemergers (allMergers : List Merger) (mods : List BcmlMod)
    (name : String)
    (h : name ∈ (collectRemergers allMergers mods).map Merger.name) :
    ∃ mod ∈ mods, name ∈ mod.mergers := by
  rcases mem_collectRemergers_go allMergers mods [] name h with h1 | h1
  · cases h1
  · exact h1

theorem countPerform_applyQueueLoop_zero (registry : List Merger)
    (poolId : Nat) (mods installs : List BcmlMod) (name : String)
    (hmods : ∀ mod ∈ mods, name ∉ mod.mergers)
    (hinst : ∀ i ∈ installs, name ∉ i.mergers) :
    countPerform name (applyQueueLoop registry poolId mods installs) = 0 := by
  induction installs generalizing mods with
  | nil => rfl
  | cons i rest ih =>
      have hmods2 : ∀ mod ∈ mods ++ [i], name ∉ mod.mergers := by
        intro mod hm
        rcases List.mem_append.mp hm with h | h
        · exact hmods mod h
        · have h2 : mod = i := by simpa using h
          exact h2 ▸ hinst i (by simp)
      have hso : countPerform name
          ((sort_mergers registry (collectRemergers registry (mods ++ [i]))).map
            (fun m => Event.perform m.name (some poolId))) = 0 := by
        rw [countPerform_map_performs]
        apply countName_eq_zero
        intro hmem
        rcases (mem_sort_names registry _ name).mp hmem with ⟨h1, h2⟩
        rcases mem_collectRemergers registry (mods ++ [i]) name h2
          with ⟨mod, hm, hmm⟩
        exact hmods2 mod hm hmm
      rw [applyQueueLoop, countPerform_cons, countPerform_append, hso,
        ih (mods ++ [i]) hmods2 (fun j hj => hinst j (List.mem_cons_of_mem i hj))]
      simp [isPerformOf]

/-- C4: a merger whose is-affected test (`is_mod_logged`) is false for
every mod touched by the operation never has its `perform_merge` invoked,
for `install_mod`, `apply_queue` and `update_mod` alike (no forced
remerge happens inside these operations). -/
theorem unaffected_merger_never_runs (registry : List Merger) (poolId : Nat)
    (name : String) (fail : String → Option Exc) :
    (∀ mods : List BcmlMod, (∀ mod ∈ mods, name ∉ mod.mergers)
      → countPerform name (install_mod registry poolId fail mods).1 = 0)
    ∧ (∀ (moves : List (BcmlMod × Nat)) (installs : List BcmlMod),
        (∀ mv ∈ moves, name ∉ mv.1.mergers)
        → (∀ i ∈ installs, name ∉ i.mergers)
        → countPerform name (apply_queue registry poolId moves installs) = 0)
    ∧ (∀ oldMod newMod : BcmlMod,
        name ∉ oldMod.mergers → name ∉ newMod.mergers
        → countPerform name (update_mod registry poolId fail oldMod newMod).1
            = 0) := by
  refine ⟨?_, ?_, ?_⟩
  · intro mods hmods
    have h1 : name ∉ (sort_mergers registry (installUnion registry mods)).map
        Merger.name := by
      intro hmem
      rcases (mem_sort_names registry _ name).mp hmem with ⟨_, hu⟩
      rcases (mem_installUnion_names registry mods name).mp hu
        with ⟨_, mod, hm, hmm⟩
      exact hmods mod hm hmm
    simp only [install_mod]
    rw [countPerform_append, countPerform_map_installs,
      countPerform_runMergers_zero fail (some poolId) _ name h1]
  · intro moves installs hmoves hinst
    have hmods : ∀ mod ∈ moves.map (fun mv => { mv.1 with priority := mv.2 }),
        name ∉ mod.mergers := by
      intro mod hm
      rcases List.mem_map.mp hm with ⟨mv, hmv, rfl⟩
      exact hmoves mv hmv
    rw [apply_queue, countPerform_append, countPerform_append,
      countPerform_map_moves,
      countPerform_applyQueueLoop_zero registry poolId _ installs name hmods hinst]
    rfl
  · intro oldMod newMod hO hN
    have h1 : name ∉ (addMergers (get_mergers_for_mod registry oldMod)
        (get_mergers_for_mod registry newMod)).map Merger.name := by
      intro hmem
      rcases (mem_addMergers_names _ _ name).mp hmem with h | h
      · exact hO ((mem_gmfm_names registry oldMod name).mp h).2
      · exact hN ((mem_gmfm_names registry newMod name).mp h).2
    simp only [update_mod]
    rw [countPerform_cons, countPerform_cons,
      countPerform_runMergers_zero fail (some poolId) _ name h1]
    simp [isPerformOf]

/-- Witness for `unaffected_merger_never_runs`: merger `M2` is not logged
by `demoModA`, so none of the three operations touching only `demoModA`
ever performs `M2`. -/
theorem unaffected_merger_never_runs_witness :
    countPerform "M2" (install_mod demoRegistry 0 (fun _ => none) [demoModA]).1
        = 0
    ∧ countPerform "M2" (apply_queue demoRegistry 0 [(demoModA, 5)] [demoModA])
        = 0
    ∧ countPerform "M2"
        (update_mod demoRegistry 0 (fun _ => none) demoModA demoModA).1 = 0 :=
  ⟨(unaffected_merger_never_runs demoRegistry 0 "M2" (fun _ => none)).1
      [demoModA] (by decide),
   (unaffected_merger_never_runs demoRegistry 0 "M2" (fun _ => none)).2.1
      [(demoModA, 5)] [demoModA] (by decide) (by decide),
   (unaffected_merger_never_runs demoRegistry 0 "M2" (fun _ => none)).2.2
      demoModA demoModA (by decide) (by decide)⟩

theorem countName_gmfm (registry : List Merger) (mod : BcmlMod) (name : String) :
    countName name ((get_mergers_for_mod registry mod).map Merger.name)
      = if name ∈ mod.mergers then countName name (registry.map Merger.name)
        else 0 := by
  have h := countName_filter_names name (fun n => mod.mergers.contains n) registry
  simp only [get_mergers_for_mod, is_mod_logged]
  rw [h]
  by_cases hm : name ∈ mod.mergers
  · have hc : mod.mergers.contains name = true := by simpa using hm
    rw [hc, if_pos rfl, if_pos hm]
  · have hc : mod.mergers.contains name = false := by simpa using hm
    rw [hc, if_neg (by simp), if_neg hm]

theorem update_mod_none (registry : List Merger) (poolId : Nat)
    (oldMod newMod : BcmlMod) :
    update_mod registry poolId (fun _ => none) oldMod newMod
      = (Event.removeTree oldMod.path
          :: Event.installMod newMod.path (some oldMod.priority) poolId
          :: (addMergers (get_mergers_for_mod registry oldMod)
              (get_mergers_for_mod registry newMod)).map
                (fun m => Event.perform m.name (some poolId)),
         none) := by
  simp [update_mod, runMergers_none]

theorem countPerform_cons_other (name : String) (e : Event) (evs : List Event)
    (h : isPerformOf name e = false) :
    countPerform name (e :: evs) = countPerform name evs := by
  rw [countPerform_cons, h]
  simp

/-- C5: `update_mod` removes the old mod's files, reinstalls the new
package at the old mod's priority, and then runs each merger in the union
of the mergers affected by the old state and by the new state exactly
once. -/
theorem update_mod_keeps_priority_merges_once (registry : List Merger)
    (poolId : Nat) (oldMod newMod : BcmlMod) (name : String)
    (hnd : (registry.map Merger.name).Nodup) :
    (∃ performs,
      (update_mod registry poolId (fun _ => none) oldMod newMod).1
        = Event.removeTree oldMod.path
            :: Event.installMod newMod.path (some oldMod.priority) poolId
            :: performs
      ∧ ∀ e ∈ performs, ∃ n po, e = Event.perform n po)
    ∧ countPerform name
        (update_mod registry poolId (fun _ => none) oldMod newMod).1
        = (if name ∈ registry.map Merger.name
              ∧ (name ∈ oldMod.mergers ∨ name ∈ newMod.mergers)
           then 1 else 0) := by
  have hrw : (update_mod registry poolId (fun _ => none) oldMod newMod).1
      = Event.removeTree oldMod.path
          :: Event.installMod newMod.path (some oldMod.priority) poolId
          :: (addMergers (get_mergers_for_mod registry oldMod)
              (get_mergers_for_mod registry newMod)).map
                (fun m => Event.perform m.name (some poolId)) := by
    rw [update_mod_none]
  constructor
  · refine ⟨_, hrw, ?_⟩
    intro e he
    rcases List.mem_map.mp he with ⟨m, hm, rfl⟩
    exact ⟨m.name, some poolId, rfl⟩
  · rw [hrw,
      countPerform_cons_other name (Event.removeTree oldMod.path) _ rfl,
      countPerform_cons_other name
        (Event.installMod newMod.path (some oldMod.priority) poolId) _ rfl,
      countPerform_map_performs, countName_addMergers, countName_gmfm,
      countName_gmfm]
    by_cases hr : name ∈ registry.map Merger.name
    · by_cases hO : name ∈ oldMod.mergers
      · have hold : name ∈ (get_mergers_for_mod registry oldMod).map
            Merger.name := (mem_gmfm_names registry oldMod name).mpr ⟨hr, hO⟩
        have hcond : name ∈ registry.map Merger.name
            ∧ (name ∈ oldMod.mergers ∨ name ∈ newMod.mergers) := ⟨hr, Or.inl hO⟩
        rw [if_pos hold, if_pos hO, countName_nodup hnd hr, if_pos hcond]
      · have hold : name ∉ (get_mergers_for_mod registry oldMod).map
            Merger.name :=
          fun h => hO ((mem_gmfm_names registry oldMod name).mp h).2
        rw [if_neg hold]
        by_cases hN : name ∈ newMod.mergers
        · have hcond : name ∈ registry.map Merger.name
              ∧ (name ∈ oldMod.mergers ∨ name ∈ newMod.mergers) :=
            ⟨hr, Or.inr hN⟩
          rw [if_pos hN, countName_nodup hnd hr, if_pos hcond]
        · have hcond : ¬(name ∈ registry.map Merger.name
              ∧ (name ∈ oldMod.mergers ∨ name ∈ newMod.mergers)) :=
            fun hc => hc.2.elim hO hN
          rw [if_neg hN, if_neg hcond]
    · have hold : name ∉ (get_mergers_for_mod registry oldMod).map
          Merger.name :=
        fun h => hr ((mem_gmfm_names registry oldMod name).mp h).1
      have hcond : ¬(name ∈ registry.map Merger.name
          ∧ (name ∈ oldMod.mergers ∨ name ∈ newMod.mergers)) :=
        fun hc => hr hc.1
      rw [if_neg hold]
      by_cases hN : name ∈ newMod.mergers
      · rw [if_pos hN, countName_eq_zero hr, if_neg hcond]
      · rw [if_neg hN, if_neg hcond]

/-- Witness for `update_mod_keeps_priority_merges_once`: updating
`demoModA` (priority 100, logs `M1`) with a new package logging `M2`. -/
theorem update_mod_keeps_priority_merges_once_witness :
    (demoRegistry.map Merger.name).Nodup
    ∧ ((∃ performs,
        (update_mod demoRegistry 0 (fun _ => none) demoModA demoModA2).1
          = Event.removeTree demoModA.path
              :: Event.installMod demoModA2.path (some demoModA.priority) 0
              :: performs
        ∧ ∀ e ∈ performs, ∃ n po, e = Event.perform n po)
      ∧ countPerform "M1"
          (update_mod demoRegistry 0 (fun _ => none) demoModA demoModA2).1
          = (if "M1" ∈ demoRegistry.map Merger.name
                ∧ ("M1" ∈ demoModA.mergers ∨ "M1" ∈ demoModA2.mergers)
             then 1 else 0)) :=
  ⟨by decide,
    update_mod_keeps_priority_merges_once demoRegistry 0 demoModA demoModA2
      "M1" (by decide)⟩

/-- C6: `remerge` with an empty InstallStack tears down the existing
master modpack directory and relinks the empty baseline; with a non-empty
stack, target `"all"` forces every registered merger to recompute, and a
named target (matching exactly one merger's friendly name) performs only
that merger and then refreshes the master export. -/
theorem remerge_targets (registry : List Merger) (installedMods : List BcmlMod)
    (masterExists : Bool) (target : String) :
    (installedMods = [] → masterExists = true →
      ∀ fail, remerge registry installedMods masterExists fail target
        = ([Event.removeTree "master_modpack", Event.linkMaster], none))
    ∧ (installedMods ≠ [] → target = "all" →
      (remerge registry installedMods masterExists (fun _ => none) target).1
        = registry.map (fun m => Event.perform m.name none))
    ∧ (installedMods ≠ [] → target ≠ "all" →
      ∀ m, registry.filter (fun x => x.friendlyName = target) = [m] →
        (remerge registry installedMods masterExists (fun _ => none) target).1
          = [Event.perform m.name none, Event.refreshMasterExport]) := by
  refine ⟨?_, ?_, ?_⟩
  · intro h1 h2 fail
    subst h1
    subst h2
    simp [remerge, remergeBody]
  · intro hne hall
    subst hall
    have hE : installedMods.isEmpty = false := by
      cases installedMods with
      | nil => exact absurd rfl hne
      | cons a l => rfl
    simp [remerge, remergeBody, hE, refresh_merges, runMergers_none]
  · intro hne hnall m hm
    have hE : installedMods.isEmpty = false := by
      cases installedMods with
      | nil => exact absurd rfl hne
      | cons a l => rfl
    simp [remerge, remergeBody, hE, hnall, hm]

/-- Witness for `remerge_targets` at concrete stacks and targets:
empty-stack teardown, `"all"`, and the friendly name `"Merger Two"`. -/
theorem remerge_targets_witness :
    remerge demoRegistry [] true (fun _ => none) "all"
        = ([Event.removeTree "master_modpack", Event.linkMaster], none)
    ∧ (remerge demoRegistry [demoModA] true (fun _ => none) "all").1
        = demoRegistry.map (fun m => Event.perform m.name none)
    ∧ (remerge demoRegistry [demoModA] true (fun _ => none) "Merger Two").1
        = [Event.perform "M2" none, Event.refreshMasterExport] :=
  ⟨(remerge_targets demoRegistry [] true "all").1 rfl rfl (fun _ => none),
   (remerge_targets demoRegistry [demoModA] true "all").2.1 (by decide) rfl,
   (remerge_targets demoRegistry [demoModA] true "Merger Two").2.2 (by decide)
      (by decide) (Merger.mk "M2" "Merger Two") (by decide)⟩

/-- C9: any exception raised while executing mergers inside `install_mod`
or `remerge` escapes as `MergeError` wrapping the original exception as
its cause, so callers can tell merge failures apart from other
failures. -/
theorem merge_failures_wrapped (registry : List Merger) (poolId : Nat)
    (fail : String → Option Exc) (mods : List BcmlMod)
    (installedMods : List BcmlMod) (masterExists : Bool) (target : String) :
    (∀ err, (install_mod registry poolId fail mods).2 = some err →
      ∃ cause, err = Exc.mergeError cause
        ∧ ∃ m ∈ registry, fail m.name = some cause)
    ∧ (∀ err, (remerge registry installedMods masterExists fail target).2
          = some err →
      ∃ cause, err = Exc.mergeError cause) := by
  constructor
  · intro err herr
    have h2 : ((runMergers fail (some poolId)
        (sort_mergers registry (installUnion registry mods))).2).map
          Exc.mergeError = some err := herr
    cases hr : (runMergers fail (some poolId)
        (sort_mergers registry (installUnion registry mods))).2 with
    | none => rw [hr] at h2; cases h2
    | some cause =>
        rw [hr] at h2
        rcases runMergers_error fail (some poolId) _ cause hr with ⟨m, hm, hf⟩
        have h3 := hm
        simp only [sort_mergers] at h3
        exact ⟨cause, by simpa using h2.symm, m, List.mem_of_mem_filter h3, hf⟩
  · intro err herr
    have h2 : ((remergeBody registry installedMods masterExists fail
        target).2).map Exc.mergeError = some err := herr
    cases hr : (remergeBody registry installedMods masterExists fail target).2
      with
    | none => rw [hr] at h2; cases h2
    | some cause =>
        rw [hr] at h2
        exact ⟨cause, by simpa using h2.symm⟩

/-- Witness for `merge_failures_wrapped`: merger `M1`'s `perform_merge`
raises `boom`; both `install_mod` and `remerge` surface
`MergeError(boom)`. -/
theorem merge_failures_wrapped_witness :
    (install_mod demoRegistry 0 demoFail [demoModA]).2
        = some (Exc.mergeError (Exc.exc "boom"))
    ∧ (∃ cause, Exc.mergeError (Exc.exc "boom") = Exc.mergeError cause
        ∧ ∃ m ∈ demoRegistry, demoFail m.name = some cause)
    ∧ (∃ cause, Exc.mergeError (Exc.exc "boom") = Exc.mergeError cause) :=
  ⟨by decide,
   (merge_failures_wrapped demoRegistry 0 demoFail [demoModA] [demoModA] true
      "all").1 (Exc.mergeError (Exc.exc "boom")) (by decide),
   (merge_failures_wrapped demoRegistry 0 demoFail [demoModA] [demoModA] true
      "all").2 (Exc.mergeError (Exc.exc "boom")) (by decide)⟩
